import Mathlib

/-!
Verification of the ambient code watcher (`codex-rs/cli/src/ambient.rs`,
`ambient_project_config.rs`, `ambient_server.rs`) against its specification.

Strings of the Rust source are embedded as `List Char` (a Rust `String` is a
sequence of characters for the purposes of the reviewed logic).  The external
`glob` crate is a collaborator, so the general shell-glob fallback of
`matches_patterns` is abstracted as a `GlobMatcher` parameter; every hand
written fast path of the matcher is embedded exactly.  External effects
(git subprocesses, file reads, the streaming model endpoint, the clock) are
supplied through a `CycleEnv` record, and the functions of the source are
embedded as pure functions that return the trace of their externally visible
actions (events published on the broadcast bus, git invocations, model calls)
together with their `Result` value.
-/

namespace Ambient

/-- Abstraction of `glob::Pattern::new(pattern).ok().map_or(false, |p| p.matches(file_path))`
from the external `glob` crate: a Boolean matcher taking the pattern and the path. -/
abbrev GlobMatcher := (List Char) → (List Char) → Bool

/-- Embedding of Rust `str::trim`: drop whitespace from both ends. -/
def rustTrim (l : List Char) : List Char :=
  ((l.dropWhile Char.isWhitespace).reverse.dropWhile Char.isWhitespace).reverse

/-- Split a character list at every occurrence of `sep` (like Rust `str::split`):
the result always has one more segment than there are separators. -/
def splitOnChar (sep : Char) : List Char → List (List Char)
  | [] => [[]]
  | c :: rest =>
    if c = sep then [] :: splitOnChar sep rest
    else
      match splitOnChar sep rest with
      | [] => [[c]]
      | s :: ss => (c :: s) :: ss

/-- Drop one trailing carriage return, as Rust `str::lines` does per line. -/
def dropCR (l : List Char) : List Char :=
  if l.getLast? = some '\r' then l.dropLast else l

/-- Embedding of Rust `str::lines`: split at `'\n'`, drop a final empty segment
produced by a trailing newline, and strip one trailing `'\r'` per line. -/
def linesOf (l : List Char) : List (List Char) :=
  let segs := splitOnChar '\n' l
  (if segs.getLast? = some [] then segs.dropLast else segs).map dropCR

/-- Accumulating worker for `splitWhitespace`; `cur` holds the current word reversed. -/
def splitWsAux (cur : List Char) : List Char → List (List Char)
  | [] => if cur.isEmpty then [] else [cur.reverse]
  | c :: rest =>
    if c.isWhitespace then
      if cur.isEmpty then splitWsAux [] rest else cur.reverse :: splitWsAux [] rest
    else splitWsAux (c :: cur) rest

/-- Embedding of Rust `str::split_whitespace`: maximal runs of non-whitespace. -/
def splitWhitespace (s : List Char) : List (List Char) :=
  splitWsAux [] s

/-- Fuel-indexed worker for `trimStartMatches`; the fuel is an upper bound on the
number of removal steps (each step removes at least one character, so the
length of the subject is always enough fuel). -/
def trimStartAux (p : List Char) : Nat → List Char → List Char
  | 0, s => s
  | fuel + 1, s =>
    if !p.isEmpty && p.isPrefixOf s then trimStartAux p fuel (s.drop p.length) else s

/-- Embedding of Rust `str::trim_start_matches`: repeatedly remove the prefix `p`. -/
def trimStartMatches (p s : List Char) : List Char :=
  trimStartAux p s.length s

/-- Fuel-indexed worker for `trimEndMatches` (fuel as in `trimStartAux`). -/
def trimEndAux (p : List Char) : Nat → List Char → List Char
  | 0, s => s
  | fuel + 1, s =>
    if !p.isEmpty && p.isSuffixOf s then trimEndAux p fuel (s.take (s.length - p.length)) else s

/-- Embedding of Rust `str::trim_end_matches`: repeatedly remove the suffix `p`. -/
def trimEndMatches (p s : List Char) : List Char :=
  trimEndAux p s.length s

/-- Fuel-indexed worker for `replaceAll`; every step consumes at least one
character of the subject, so the subject length is enough fuel. -/
def replaceAux (pat rep : List Char) : Nat → List Char → List Char
  | 0, s => s
  | _ + 1, [] => []
  | fuel + 1, c :: rest =>
    if !pat.isEmpty && pat.isPrefixOf (c :: rest) then
      rep ++ replaceAux pat rep fuel ((c :: rest).drop pat.length)
    else c :: replaceAux pat rep fuel rest

/-- Embedding of Rust `str::replace`: replace every non-overlapping occurrence
of `pat` by `rep`, scanning left to right. -/
def replaceAll (pat rep s : List Char) : List Char :=
  replaceAux pat rep s.length s

/-- First-match lookup in an association list.  The Rust source stores the
per-cycle diffs in a `HashMap`; since every insertion for a given path stores
the same value (it is computed from the path alone), an association list with
first-match lookup is an equivalent model. -/
def lookupA (k : List Char) : List ((List Char) × (List Char)) → Option (List Char)
  | [] => none
  | (k2, v) :: rest => if k2 = k then some v else lookupA k rest

/-- Embedding of `Path::new(&git_root).join(&file_path)` for the relative paths
produced by `git status --porcelain`. -/
def pathJoin (a b : List Char) : List Char :=
  a ++ '/' :: b

/-- Decimal rendering of a number, as Rust's `Display` for integers. -/
def natRepr (n : Nat) : List Char :=
  (Nat.repr n).toList

/-- Embedding of `OllamaConfig` from `ambient_project_config.rs`. -/
structure OllamaConfig where
  base_url : List Char
  model : List Char
deriving DecidableEq

/-- Embedding of `ReviewConfig` from `ambient_project_config.rs`.  The Rust
`priority` field is a `u32`; only its order is ever used, so it is embedded
as `Nat` (all `u32` values embed injectively and order-preservingly). -/
structure ReviewConfig where
  name : List Char
  description : List Char
  file_patterns : List (List Char)
  prompt : List Char
  priority : Nat
  enabled : Bool
deriving DecidableEq

/-- Embedding of `CustomPrompt` from `ambient_project_config.rs`. -/
structure CustomPrompt where
  id : List Char
  content : List Char
deriving DecidableEq

/-- Embedding of `ProjectConfig` from `ambient_project_config.rs`. -/
structure ProjectConfig where
  ollama : OllamaConfig
  check_interval_secs : Nat
  port : Nat
  enabled : Bool
  exclude_patterns : List (List Char)
  custom_prompts : List CustomPrompt
  file_extensions : List (List Char)
  reviews : List ReviewConfig
deriving DecidableEq

/-- Embedding of `default_file_extensions()`. -/
def default_file_extensions : List (List Char) :=
  [("rs".toList), ("toml".toList), ("js".toList), ("ts".toList), ("jsx".toList),
   ("tsx".toList), ("py".toList), ("go".toList), ("java".toList), ("cpp".toList),
   ("c".toList), ("h".toList), ("hpp".toList), ("cs".toList), ("rb".toList),
   ("php".toList), ("swift".toList), ("kt".toList), ("scala".toList), ("sh".toList),
   ("bash".toList), ("zsh".toList), ("fish".toList), ("yml".toList), ("yaml".toList),
   ("json".toList), ("xml".toList), ("html".toList), ("css".toList), ("scss".toList),
   ("sass".toList), ("less".toList), ("sql".toList), ("md".toList), ("mdx".toList)]

/-- Embedding of `impl Default for OllamaConfig`. -/
def OllamaConfig.default : OllamaConfig :=
  { base_url := ("http://localhost:11434/v1".toList), model := ("gpt-oss:20b".toList) }

/-- First built-in review of `impl Default for ProjectConfig` (syntax/type check). -/
def defaultReview1 : ReviewConfig :=
  { name := ("構文エラー・型エラーチェック".toList)
    description := ("コードの構文エラーと型の不一致を検出".toList)
    file_patterns := [("*.rs".toList), ("*.ts".toList), ("*.js".toList)]
    prompt := ("以下のコードを分析して、構文エラーや型エラーの可能性を日本語で報告してください：\n1. 未定義変数、括弧の不一致、セミコロン忘れ\n2. 型の不一致\n3. エラー箇所は`{file_path}:行番号`形式で".toList)
    priority := 200
    enabled := true }

/-- Second built-in review of `impl Default for ProjectConfig` (security scan). -/
def defaultReview2 : ReviewConfig :=
  { name := ("セキュリティリスク検出".toList)
    description := ("セキュリティ脆弱性とハードコードされた秘密情報を検出".toList)
    file_patterns := [("*".toList)]
    prompt := ("以下のコードのセキュリティリスクを日本語で報告してください：\n1. ハードコードされたAPIキー、パスワード、トークン\n2. SQLインジェクション、XSSの脆弱性\n3. 安全でない入力検証".toList)
    priority := 150
    enabled := true }

/-- Third built-in review of `impl Default for ProjectConfig` (performance). -/
def defaultReview3 : ReviewConfig :=
  { name := ("パフォーマンス最適化".toList)
    description := ("パフォーマンス問題と最適化の機会を検出".toList)
    file_patterns := [("*.rs".toList), ("*.go".toList), ("*.cpp".toList)]
    prompt := ("以下のコードのパフォーマンス問題を日本語で分析してください：\n1. O(n²)以上の計算量\n2. 不要なループやメモリリーク\n3. より効率的な実装方法の提案".toList)
    priority := 100
    enabled := true }

/-- Embedding of `impl Default for ProjectConfig`. -/
def ProjectConfig.default : ProjectConfig :=
  { ollama := OllamaConfig.default
    check_interval_secs := 60
    port := 38080
    enabled := true
    exclude_patterns :=
      [("target/**".toList), ("node_modules/**".toList), (".git/**".toList), ("*.min.js".toList)]
    custom_prompts := []
    file_extensions := default_file_extensions
    reviews := [defaultReview1, defaultReview2, defaultReview3] }

/-- Embedding of the body of the `for pattern in patterns` loop of
`ProjectConfig::matches_patterns`: the four checks of the source, in source
order, each returning `true` on success and falling through on failure
(`*`, then `*.ext`, then `prefix/**`, then the glob-crate fallback `g`). -/
def matchesSinglePattern (g : GlobMatcher) (file_path pattern : List Char) : Bool :=
  if pattern = ("*".toList) then true
  else if ("*.".toList).isPrefixOf pattern
      && ('.' :: trimStartMatches ("*.".toList) pattern).isSuffixOf file_path then true
  else if ("/**".toList).isSuffixOf pattern
      && (trimEndMatches ("/**".toList) pattern).isPrefixOf file_path then true
  else g pattern file_path

/-- Embedding of `ProjectConfig::matches_patterns` (the `&self` receiver is
unused by the source function and is omitted). -/
def matches_patterns (g : GlobMatcher) (file_path : List Char) (patterns : List (List Char)) : Bool :=
  patterns.any (fun pattern => matchesSinglePattern g file_path pattern)

/-- Embedding of `ProjectConfig::is_excluded`. -/
def ProjectConfig.is_excluded (cfg : ProjectConfig) (g : GlobMatcher) (file_path : List Char) : Bool :=
  matches_patterns g file_path cfg.exclude_patterns

/-- Stable descending-key insertion: `a` is placed after every element with a
strictly greater key and before the first element whose key is not greater. -/
def insertDesc {α : Type} (key : α → Nat) (a : α) : List α → List α
  | [] => [a]
  | b :: l => if key a < key b then b :: insertDesc key a l else a :: b :: l

/-- Stable insertion sort by descending key.  `Vec::sort_by` of the Rust source
is a stable sort, and it is called with comparator `b.priority.cmp(&a.priority)`;
any stable sort for that comparator computes this same list. -/
def sortDesc {α : Type} (key : α → Nat) : List α → List α
  | [] => []
  | a :: l => insertDesc key a (sortDesc key l)

/-- Embedding of `ProjectConfig::get_reviews_for_file`: keep the enabled rules
whose patterns match, then stable-sort by descending priority. -/
def ProjectConfig.get_reviews_for_file (cfg : ProjectConfig) (g : GlobMatcher)
    (file_path : List Char) : List ReviewConfig :=
  sortDesc (fun r => r.priority)
    (cfg.reviews.filter (fun r => r.enabled && matches_patterns g file_path r.file_patterns))

/-- Index-tagged variant of `get_reviews_for_file`: the same filter and the same
stable sort applied to the rules paired with their declaration positions.
Used to state the tie-breaking property of the sort. -/
def get_reviews_indexed (cfg : ProjectConfig) (g : GlobMatcher)
    (file_path : List Char) : List (Nat × ReviewConfig) :=
  sortDesc (fun p => p.2.priority)
    (cfg.reviews.enum.filter (fun p => p.2.enabled && matches_patterns g file_path p.2.file_patterns))

/-- Strict ordering on index-tagged rules: `a` must precede `b` when `a` has the
strictly greater priority, or equal priority and the earlier declaration position. -/
def ruleBefore (a b : Nat × ReviewConfig) : Prop :=
  b.2.priority < a.2.priority ∨ (a.2.priority = b.2.priority ∧ a.1 < b.1)

/-- Embedding of the `ResponseEvent` cases distinguished by the streaming loops
of `run_query_response` / `run_analysis_prompt`: a text fragment, the completion
signal, a mid-stream error, or any other (ignored) event kind. -/
inductive StreamItem where
  | outputTextDelta (d : List Char)
  | completed
  | errorItem (e : List Char)
  | otherEvent
deriving DecidableEq

/-- Result of consuming a stream: the aggregated text on success, or the partial
accumulation, the error, and the unconsumed remainder on a mid-stream error. -/
inductive StreamOutcome where
  | done (full : List Char) (rest : List StreamItem)
  | errored (partAcc : List Char) (err : List Char) (rest : List StreamItem)
deriving DecidableEq

/-- Embedding of the `while let Some(event) = stream.next()` loop shared by
`run_query_response` and `run_analysis_prompt`: fragments are appended to the
accumulator, `Completed` breaks, an error returns immediately (the remainder of
the stream is returned untouched), other events are skipped. -/
def consumeStream (acc : List Char) : List StreamItem → StreamOutcome
  | [] => .done acc []
  | .outputTextDelta d :: rest => consumeStream (acc ++ d) rest
  | .completed :: rest => .done acc rest
  | .errorItem e :: rest => .errored acc e rest
  | .otherEvent :: rest => consumeStream acc rest

/-- Embedding of the `AmbientEvent` enum of `ambient_server.rs`. -/
inductive AmbientEvent where
  | analysis (s : List Char)
  | userQuery (s : List Char)
  | queryResponse (s : List Char)
  | system (s : List Char)
  | projectRoot (s : List Char)
deriving DecidableEq

/-- Message `format!("Error processing stream: {e:?}")` (the debug rendering of
the error is abstracted as the error text itself). -/
def streamErrMsg (e : List Char) : List Char :=
  ("Error processing stream: ".toList) ++ e

/-- Message `format!("Failed to get AI insight: {e}")`. -/
def openFailMsg (e : List Char) : List Char :=
  ("Failed to get AI insight: ".toList) ++ e

/-- Message `format!("Git command failed: {}", stderr)`. -/
def gitFailMsg (e : List Char) : List Char :=
  ("Git command failed: ".toList) ++ e

/-- Embedding of `run_analysis_prompt` of `ambient.rs`, given the outcome of
`stream_chat_completions` (`.error e` when opening the stream fails, `.ok items`
when it yields the event sequence `items`).  Returns the list of events
published on the bus and the error of the `Result` (`none` for `Ok(())`). -/
def run_analysis_prompt (streamRes : Except (List Char) (List StreamItem)) :
    (List AmbientEvent) × Option (List Char) :=
  match streamRes with
  | .error e => ([.analysis (openFailMsg e)], some (openFailMsg e))
  | .ok items =>
    match consumeStream [] items with
    | .done full _ => ([.analysis full], none)
    | .errored _ e _ => ([.analysis (streamErrMsg e)], some (streamErrMsg e))

/-- Embedding of `run_query_response` of `ambient.rs` (identical to
`run_analysis_prompt` except that it publishes `QueryResponse` events). -/
def run_query_response (streamRes : Except (List Char) (List StreamItem)) :
    (List AmbientEvent) × Option (List Char) :=
  match streamRes with
  | .error e => ([.queryResponse (openFailMsg e)], some (openFailMsg e))
  | .ok items =>
    match consumeStream [] items with
    | .done full _ => ([.queryResponse full], none)
    | .errored _ e _ => ([.queryResponse (streamErrMsg e)], some (streamErrMsg e))

/-- Concatenation, in arrival order, of the text fragments of a stream. -/
def deltaText (items : List StreamItem) : List Char :=
  (items.filterMap (fun it =>
    match it with
    | .outputTextDelta d => some d
    | _ => none)).flatten

/-- Recognizes the stream items that neither terminate nor fail the consuming
loop: text fragments and ignored event kinds. -/
def isFragOrOther : StreamItem → Bool
  | .outputTextDelta _ => true
  | .otherEvent => true
  | _ => false

/-- Outcome of one git subprocess: captured stdout on success (exit status 0),
captured stderr on failure, as distinguished by `run_git_command`. -/
inductive GitResult where
  | ok (out : List Char)
  | err (msg : List Char)
deriving DecidableEq

/-- External collaborators of one scan cycle: the rendered clock, the results of
the `git status` / `git rev-parse` / per-file `git diff` commands, the file
reads, and the streaming model endpoint (per prompt: either the stream fails to
open with an error, or it yields a sequence of stream items). -/
structure CycleEnv where
  now : List Char
  statusResult : GitResult
  revParseResult : GitResult
  diffResult : (List Char) → GitResult
  readFile : (List Char) → Option (List Char)
  stream : (List Char) → Except (List Char) (List StreamItem)

/-- Externally visible actions of the watcher: an event published on the
broadcast bus, a git subprocess invocation, or a streaming model call. -/
inductive Action where
  | sendEvent (e : AmbientEvent)
  | gitCall (args : List (List Char))
  | modelCall (ptext : List Char)
deriving DecidableEq

/-- Action-level lift of `run_analysis_prompt`: the model call itself followed by
the published events, paired with the `Result`. -/
def run_analysis_prompt_actions (env : CycleEnv) (ptext : List Char) :
    (List Action) × Option (List Char) :=
  let res := run_analysis_prompt (env.stream ptext)
  (Action.modelCall ptext :: res.1.map Action.sendEvent, res.2)

/-- Embedding of `analyze_with_prompt` of `ambient.rs`: publish the title as an
`Analysis` event, run the analysis prompt, and on failure publish
`format!("Error: {e}")`; the failure is swallowed (no `Result` is returned). -/
def analyzeWithPrompt (env : CycleEnv) (title ptext : List Char) : List Action :=
  let res := run_analysis_prompt_actions env ptext
  Action.sendEvent (.analysis ('\n' :: title)) ::
    (res.1 ++
      (match res.2 with
       | some e => [Action.sendEvent (.analysis (("Error: ".toList) ++ e))]
       | none => []))

/-- First default prompt of `perform_ambient_check` (syntax/type-error check),
`format!` with the file path and the diff content inserted. -/
def prompt1 (file_path diff_content : List Char) : List Char :=
  ("あなたはコードレビューアシスタントです。`".toList) ++ file_path
    ++ ("`のdiffを分析して、以下を日本語で報告してください：\n\n1. 構文エラーの可能性がある箇所（未定義変数、括弧の不一致、セミコロン忘れなど）\n2. 型の不一致の可能性\n3. エラーがある場合は`".toList)
    ++ file_path
    ++ (":行番号`の形式でリンクを提供\n\nエラーがない場合は『構文エラーは見つかりませんでした』と答えてください。\n\n---\n\n".toList)
    ++ diff_content

/-- Second default prompt of `perform_ambient_check` (security-risk scan). -/
def prompt2 (file_path diff_content : List Char) : List Char :=
  ("あなたはセキュリティエキスパートです。`".toList) ++ file_path
    ++ ("`のdiffを分析して、以下のセキュリティリスクを日本語で報告してください：\n\n1. ハードコードされたAPIキー、パスワード、トークン\n2. SQLインジェクション、XSSの脆弱性\n3. 安全でない入力検証\n4. エラー箇所は`".toList)
    ++ file_path
    ++ (":行番号`形式で\n\nリスクがない場合は『セキュリティリスクは見つかりませんでした』と答えてください。\n\n---\n\n".toList)
    ++ diff_content

/-- The `"{file_path}"` placeholder replaced inside custom review prompts. -/
def placeholderFP : List Char :=
  ("{file_path}".toList)

/-- Separator `"\n\n---\n\n"` between a custom prompt and the reviewed content. -/
def sepLine : List Char :=
  ("\n\n---\n\n".toList)

/-- Content built for one custom review of one file: the rule prompt (with the
placeholder replaced) over the diff when the diff map has an entry, otherwise
over the file content read from the repository root; `none` when that read
fails (the rule is skipped by `continue`). -/
def reviewContent (env : CycleEnv) (all_diffs : List ((List Char) × (List Char)))
    (git_root file_path : List Char) (rv : ReviewConfig) : Option (List Char) :=
  match lookupA file_path all_diffs with
  | some diff_content =>
    some (replaceAll placeholderFP file_path rv.prompt ++ sepLine ++ diff_content)
  | none =>
    match env.readFile (pathJoin git_root file_path) with
    | some file_content =>
      some (replaceAll placeholderFP file_path rv.prompt ++ sepLine ++ file_content)
    | none => none

/-- Title `format!("[{}/{}] {}: {}", review_index, review_count, name, description)`. -/
def titleFor (review_index review_count : Nat) (rv : ReviewConfig) : List Char :=
  '[' :: natRepr review_index ++ '/' :: natRepr review_count ++ ("] ".toList)
    ++ rv.name ++ (": ".toList) ++ rv.description

/-- Embedding of the `for review in reviews` loop of `perform_ambient_check`:
`review_index` (starting at 1) advances only when a review actually runs; a
review whose content cannot be built is skipped without publishing anything. -/
def processReviews (env : CycleEnv) (all_diffs : List ((List Char) × (List Char)))
    (git_root file_path : List Char) (review_count : Nat) :
    Nat → List ReviewConfig → List Action
  | _, [] => []
  | review_index, rv :: rest =>
    match reviewContent env all_diffs git_root file_path rv with
    | none => processReviews env all_diffs git_root file_path review_count review_index rest
    | some content =>
      analyzeWithPrompt env (titleFor review_index review_count rv) content
        ++ processReviews env all_diffs git_root file_path review_count (review_index + 1) rest

/-- Embedding of the per-file body of the `for file_path in changed_files` loop
of `perform_ambient_check`: skip (with an event) when excluded; otherwise
announce the file, run either the default pair of prompts over the diff (when
no configured review matches) or the matching reviews, and announce completion. -/
def processFile (g : GlobMatcher) (env : CycleEnv) (cfg : ProjectConfig)
    (all_diffs : List ((List Char) × (List Char))) (git_root file_path : List Char) :
    List Action :=
  if cfg.is_excluded g file_path then
    [Action.sendEvent (.analysis (("[スキップ] ".toList) ++ file_path ++ (" は除外パターンに一致".toList)))]
  else
    Action.sendEvent (.analysis (("--- 分析中: ".toList) ++ file_path ++ (" ---".toList))) ::
      ((let reviews := cfg.get_reviews_for_file g file_path
        if reviews.isEmpty then
          match lookupA file_path all_diffs with
          | some diff_content =>
            analyzeWithPrompt env ("[1/3] 構文エラー・型エラーのチェック:".toList)
                (prompt1 file_path diff_content)
              ++ analyzeWithPrompt env ("[2/3] セキュリティリスクの検出:".toList)
                (prompt2 file_path diff_content)
          | none => []
        else processReviews env all_diffs git_root file_path reviews.length 1 reviews)
       ++ [Action.sendEvent (.analysis (("--- 分析完了: ".toList) ++ file_path ++ (" ---\n".toList)))])

/-- Changed paths extracted from the `git status --porcelain` output: for each
line of the trimmed output, the second whitespace-separated token (lines with
fewer than two tokens are dropped), as in the source's `split_whitespace`
collection with `parts[1]`. -/
def changedFilesOf (status_output : List Char) : List (List Char) :=
  (linesOf (rustTrim status_output)).filterMap (fun line =>
    match splitWhitespace line with
    | _ :: second :: _ => some second
    | _ => none)

/-- The per-cycle diff map: one entry per changed file whose `git diff HEAD`
succeeded with output that is non-empty after trimming. -/
def mkAllDiffs (env : CycleEnv) (changed : List (List Char)) :
    List ((List Char) × (List Char)) :=
  changed.filterMap (fun f =>
    match env.diffResult f with
    | .ok d => if rustTrim d = [] then none else some (f, d)
    | .err _ => none)

/-- Message `format!("[{}] {}個の変更されたファイルが見つかりました。", now, n)`. -/
def foundMsg (now : List Char) (n : Nat) : List Char :=
  '[' :: now ++ ("] ".toList) ++ natRepr n ++ ("個の変更されたファイルが見つかりました。".toList)

/-- Arguments of the `git status --porcelain` invocation. -/
def statusArgs : List (List Char) :=
  [("status".toList), ("--porcelain".toList)]

/-- Arguments of the `git rev-parse --show-toplevel` invocation. -/
def revParseArgs : List (List Char) :=
  [("rev-parse".toList), ("--show-toplevel".toList)]

/-- Arguments of the per-file `git diff HEAD -- <file>` invocation. -/
def diffArgs (f : List Char) : List (List Char) :=
  [("diff".toList), ("HEAD".toList), ("--".toList), f]

/-- Embedding of `perform_ambient_check` of `ambient.rs`: the trace of actions
together with the error of the returned `Result` (`none` for `Ok(())`).
The project configuration is the value of
`ProjectConfig::load_from_project(cwd).unwrap_or_default()`, supplied as an
argument.  A `?`-propagated git failure aborts with the partial trace; the
per-file diff failures are absorbed by the `if let Ok(diff)` of the source. -/
def perform_ambient_check (g : GlobMatcher) (env : CycleEnv) (project_config : ProjectConfig) :
    (List Action) × Option (List Char) :=
  if !project_config.enabled then ([], none)
  else
    match env.statusResult with
    | .err e => ([Action.gitCall statusArgs], some (gitFailMsg e))
    | .ok status_output =>
      if rustTrim status_output = [] then ([Action.gitCall statusArgs], none)
      else
        let lines := linesOf (rustTrim status_output)
        let t1 := Action.gitCall statusArgs ::
          ((if lines.isEmpty then []
            else [Action.sendEvent (.analysis (foundMsg env.now lines.length))])
           ++ [Action.gitCall revParseArgs])
        match env.revParseResult with
        | .err e => (t1, some (gitFailMsg e))
        | .ok root_out =>
          let git_root := rustTrim root_out
          let changed := changedFilesOf status_output
          let all_diffs := mkAllDiffs env changed
          (t1 ++ changed.map (fun f => Action.gitCall (diffArgs f))
              ++ changed.flatMap (fun f => processFile g env project_config all_diffs git_root f),
           none)

/-- Message `format!("[{}] Error: {}", now, e)` published by the scheduler loop
when a cycle aborts. -/
def tickErrMsg (now e : List Char) : List Char :=
  '[' :: now ++ ("] Error: ".toList) ++ e

/-- Embedding of the timer-tick arm of the `tokio::select!` loop of `run_main`:
run the cycle; if it returns an error, publish it as an `Analysis` event. -/
def tick_handler (g : GlobMatcher) (env : CycleEnv) (cfg : ProjectConfig) : List Action :=
  let res := perform_ambient_check g env cfg
  res.1 ++
    (match res.2 with
     | some e => [Action.sendEvent (.analysis (tickErrMsg env.now e))]
     | none => [])

/-- The scheduler loop across successive ticks: every tick runs its handler to
completion and the loop proceeds to the next tick regardless of cycle errors. -/
def scheduler_run (g : GlobMatcher) (cfg : ProjectConfig) (ticks : List CycleEnv) : List Action :=
  ticks.flatMap (fun env => tick_handler g env cfg)

/-- Embedding of the port-binding loop of `run_server` in `ambient_server.rs`:
starting at the configured port, bind the first free port, retrying on the next
port while `try_port < port + 10` (u16 addition, embedded with an explicit
`% 65536`); when the condition fails on a busy port the server gives up.  The
loop body runs at most 11 times (the try counter strictly increases toward
`(port + 10) % 65536` and starts at `port`), so fuel 11 is exact. -/
def bindAux (bindOk : Nat → Bool) (port : Nat) : Nat → Nat → Option Nat
  | 0, _ => none
  | fuel + 1, try_port =>
    if bindOk try_port then some try_port
    else if try_port < (port + 10) % 65536 then bindAux bindOk port fuel (try_port + 1)
    else none

/-- Port actually bound by `run_server` (`none` when startup fails fatally and
the gateway returns, which stops only the gateway task). -/
def run_server_bind (bindOk : Nat → Bool) (port : Nat) : Option Nat :=
  bindAux bindOk port 11 port

/-- Events published in a trace. -/
def eventsOf (tr : List Action) : List AmbientEvent :=
  tr.filterMap (fun a =>
    match a with
    | .sendEvent e => some e
    | _ => none)

/-- Git invocations of a trace. -/
def gitCallsOf (tr : List Action) : List (List (List Char)) :=
  tr.filterMap (fun a =>
    match a with
    | .gitCall args => some args
    | _ => none)

/-- Model calls of a trace, in order. -/
def modelCallsOf (tr : List Action) : List (List Char) :=
  tr.filterMap (fun a =>
    match a with
    | .modelCall p => some p
    | _ => none)

/-- A project configuration whose review list is empty (a config file with no
`[[reviews]]` entries), so the default review branch of the cycle runs. -/
def cfgNoReviews : ProjectConfig :=
  { ProjectConfig.default with reviews := [] }

/-- A project configuration with reviews disabled. -/
def cfgDisabled : ProjectConfig :=
  { ProjectConfig.default with enabled := false }

/-- Cycle collaborators for a run with one untracked changed file: `git status`
reports `?? new.rs`, and `git diff HEAD` produces empty output for it (an
untracked file has no diff against the last committed revision). -/
def envUntracked : CycleEnv :=
  { now := []
    statusResult := .ok ("?? new.rs".toList)
    revParseResult := .ok ("/repo".toList)
    diffResult := fun _ => .ok []
    readFile := fun _ => none
    stream := fun _ => .error [] }

/-- Cycle collaborators for a run where the per-file `git diff HEAD` command
exits non-zero for the single modified file. -/
def envDiffFails : CycleEnv :=
  { now := []
    statusResult := .ok ("M  a.rs".toList)
    revParseResult := .ok ("/repo".toList)
    diffResult := fun _ => .err ("fatal: bad object HEAD".toList)
    readFile := fun _ => none
    stream := fun _ => .error ("connection refused".toList) }

/-- Cycle collaborators for a run with one modified file with a non-empty diff,
whose model requests all fail to open. -/
def envDiffOk : CycleEnv :=
  { now := []
    statusResult := .ok ("M  a.rs".toList)
    revParseResult := .ok ("/repo".toList)
    diffResult := fun _ => .ok ("dif".toList)
    readFile := fun _ => none
    stream := fun _ => .error ("connection refused".toList) }

/-- Cycle collaborators where `git status --porcelain` itself exits non-zero. -/
def envStatusFails : CycleEnv :=
  { now := []
    statusResult := .err ("not a git repository".toList)
    revParseResult := .err ("not a git repository".toList)
    diffResult := fun _ => .err []
    readFile := fun _ => none
    stream := fun _ => .error [] }

/-- Cycle collaborators where the diff map is empty and reading the file from
the repository root succeeds. -/
def envReadOk : CycleEnv :=
  { now := []
    statusResult := .ok ("M  a.rs".toList)
    revParseResult := .ok ("/repo".toList)
    diffResult := fun _ => .err ("fatal: bad object HEAD".toList)
    readFile := fun _ => some ("fn main() \x7b\x7d".toList)
    stream := fun _ => .error [] }

/-! ### Properties of the stable sort of the Review Rule Engine -/

theorem insertDesc_perm {α : Type} (key : α → Nat) (a : α) (l : List α) :
    (insertDesc key a l).Perm (a :: l) := by
  induction l with
  | nil => exact List.Perm.refl _
  | cons b l ih =>
    by_cases h : key a < key b
    · simp only [insertDesc, if_pos h]
      exact (ih.cons b).trans (List.Perm.swap a b l)
    · simp only [insertDesc, if_neg h]
      exact List.Perm.refl _

theorem sortDesc_perm {α : Type} (key : α → Nat) (l : List α) :
    (sortDesc key l).Perm l := by
  induction l with
  | nil => exact List.Perm.refl _
  | cons a l ih => exact (insertDesc_perm key a (sortDesc key l)).trans (ih.cons a)

theorem insertDesc_pairwise (a : Nat × ReviewConfig) (l : List (Nat × ReviewConfig))
    (hl : l.Pairwise ruleBefore) (hidx : ∀ b ∈ l, a.1 < b.1) :
    (insertDesc (fun p => p.2.priority) a l).Pairwise ruleBefore := by
  induction l with
  | nil => simp [insertDesc]
  | cons b l ih =>
    rcases List.pairwise_cons.mp hl with ⟨hb, hl2⟩
    by_cases h : a.2.priority < b.2.priority
    · simp only [insertDesc, if_pos h]
      refine List.pairwise_cons.mpr
        ⟨?_, ih hl2 (fun c hc => hidx c (List.mem_cons_of_mem b hc))⟩
      intro c hc
      have hc2 : c ∈ a :: l := (insertDesc_perm (fun p => p.2.priority) a l).mem_iff.mp hc
      rcases List.mem_cons.mp hc2 with rfl | hc3
      · exact Or.inl h
      · exact hb c hc3
    · simp only [insertDesc, if_neg h]
      have hba : b.2.priority ≤ a.2.priority := Nat.le_of_not_lt h
      refine List.pairwise_cons.mpr ⟨?_, hl⟩
      intro c hc
      rcases List.mem_cons.mp hc with rfl | hc2
      · rcases Nat.lt_or_ge c.2.priority a.2.priority with hlt | hge
        · exact Or.inl hlt
        · exact Or.inr ⟨Nat.le_antisymm hge hba, hidx c (List.mem_cons_self c l)⟩
      · rcases hb c hc2 with hlt | ⟨heq, _⟩
        · exact Or.inl (Nat.lt_of_lt_of_le hlt hba)
        · rcases Nat.lt_or_ge c.2.priority a.2.priority with hlt2 | hge2
          · exact Or.inl hlt2
          · exact Or.inr ⟨Nat.le_antisymm hge2 (heq ▸ hba),
              hidx c (List.mem_cons_of_mem b hc2)⟩

theorem sortDesc_pairwise (l : List (Nat × ReviewConfig))
    (h : l.Pairwise (fun a b => a.1 < b.1)) :
    (sortDesc (fun p => p.2.priority) l).Pairwise ruleBefore := by
  induction l with
  | nil => simp [sortDesc]
  | cons a l ih =>
    rcases List.pairwise_cons.mp h with ⟨ha, hl⟩
    exact insertDesc_pairwise a _ (ih hl)
      (fun b hb => ha b ((sortDesc_perm (fun p => p.2.priority) l).subset hb))

theorem enumFrom_pairwise_fst (n : Nat) (l : List ReviewConfig) :
    (List.enumFrom n l).Pairwise (fun a b => a.1 < b.1) := by
  induction l generalizing n with
  | nil => simp
  | cons x l ih =>
    simp only [List.enumFrom]
    refine List.pairwise_cons.mpr ⟨?_, ih (n + 1)⟩
    intro b hb
    have h2 := (List.mem_enumFrom hb).1
    omega

theorem insertDesc_map_snd (a : Nat × ReviewConfig) (l : List (Nat × ReviewConfig)) :
    (insertDesc (fun p => p.2.priority) a l).map Prod.snd
      = insertDesc (fun r => r.priority) a.2 (l.map Prod.snd) := by
  induction l with
  | nil => rfl
  | cons b l ih =>
    by_cases h : a.2.priority < b.2.priority
    · simp [insertDesc, h, ih]
    · simp [insertDesc, h]

theorem sortDesc_map_snd (l : List (Nat × ReviewConfig)) :
    (sortDesc (fun p => p.2.priority) l).map Prod.snd
      = sortDesc (fun r => r.priority) (l.map Prod.snd) := by
  induction l with
  | nil => rfl
  | cons a l ih => simp [sortDesc, insertDesc_map_snd, ih]

theorem filter_map_snd (pred : ReviewConfig → Bool) (l : List (Nat × ReviewConfig)) :
    (l.filter (fun p => pred p.2)).map Prod.snd = (l.map Prod.snd).filter pred := by
  induction l with
  | nil => rfl
  | cons a l ih =>
    by_cases h : pred a.2
    · simp [List.filter_cons, h, ih]
    · simp [List.filter_cons, h, ih]

/-- C1: for every `ProjectConfig` and file path, `get_reviews_for_file` returns
exactly the rules that are enabled and whose `file_patterns` match the path
(the index-tagged run is a permutation of the filtered, position-tagged rule
list, and projecting the tags away gives the function's actual result), sorted
by priority in non-increasing order with ties between equal priorities broken
by declaration order (the run is pairwise ordered by `ruleBefore`). -/
theorem get_reviews_for_file_spec (g : GlobMatcher) (cfg : ProjectConfig) (fp : List Char) :
    cfg.get_reviews_for_file g fp = (get_reviews_indexed cfg g fp).map Prod.snd
    ∧ (get_reviews_indexed cfg g fp).Perm
        (cfg.reviews.enum.filter
          (fun p => p.2.enabled && matches_patterns g fp p.2.file_patterns))
    ∧ (get_reviews_indexed cfg g fp).Pairwise ruleBefore := by
  refine ⟨?_, sortDesc_perm _ _, ?_⟩
  · unfold ProjectConfig.get_reviews_for_file get_reviews_indexed
    rw [sortDesc_map_snd,
      filter_map_snd (fun r => r.enabled && matches_patterns g fp r.file_patterns),
      List.enum_map_snd]
  · exact sortDesc_pairwise _
      ((enumFrom_pairwise_fst 0 cfg.reviews).sublist (List.filter_sublist _))

/-! ### Properties of the streaming consumer -/

theorem deltaText_cons_delta (d : List Char) (l : List StreamItem) :
    deltaText (StreamItem.outputTextDelta d :: l) = d ++ deltaText l := by
  simp [deltaText, List.filterMap_cons]

theorem deltaText_cons_other (l : List StreamItem) :
    deltaText (StreamItem.otherEvent :: l) = deltaText l := by
  simp [deltaText, List.filterMap_cons]

theorem consumeStream_fragments (pre : List StreamItem)
    (hp : pre.all isFragOrOther = true) (rest : List StreamItem) (acc : List Char) :
    consumeStream acc (pre ++ rest) = consumeStream (acc ++ deltaText pre) rest := by
  induction pre generalizing acc with
  | nil => simp [deltaText]
  | cons it pre ih =>
    have h1 : isFragOrOther it = true ∧ pre.all isFragOrOther = true := by
      simpa [List.all_cons] using hp
    cases it with
    | outputTextDelta d =>
      simp only [List.cons_append, consumeStream, deltaText_cons_delta, List.append_eq]
      rw [ih h1.2, List.append_assoc]
    | completed => simp [isFragOrOther] at h1
    | errorItem e => simp [isFragOrOther] at h1
    | otherEvent =>
      simp only [List.cons_append, consumeStream, deltaText_cons_other, List.append_eq]
      exact ih h1.2 acc

theorem all_fragments_map_delta (fs : List (List Char)) :
    (fs.map StreamItem.outputTextDelta).all isFragOrOther = true := by
  induction fs with
  | nil => rfl
  | cons d fs ih => simp [List.all_cons, isFragOrOther, ih]

theorem deltaText_map_delta (fs : List (List Char)) :
    deltaText (fs.map StreamItem.outputTextDelta) = fs.flatten := by
  induction fs with
  | nil => rfl
  | cons d fs ih => simp [deltaText_cons_delta, ih]

/-- C8: a finite fragment sequence terminated by a completion signal makes both
streaming consumers publish exactly one aggregated result event whose text is
the concatenation of the fragments in arrival order, and return success. -/
theorem stream_completion_aggregates (fs : List (List Char)) (post : List StreamItem) :
    run_analysis_prompt (.ok (fs.map StreamItem.outputTextDelta ++ StreamItem.completed :: post))
      = ([.analysis fs.flatten], none)
    ∧ run_query_response (.ok (fs.map StreamItem.outputTextDelta ++ StreamItem.completed :: post))
      = ([.queryResponse fs.flatten], none) := by
  have hc : consumeStream [] (fs.map StreamItem.outputTextDelta ++ StreamItem.completed :: post)
      = .done fs.flatten post := by
    rw [consumeStream_fragments (fs.map StreamItem.outputTextDelta)
        (all_fragments_map_delta fs) (StreamItem.completed :: post) []]
    simp [consumeStream, deltaText_map_delta]
  constructor
  · simp [run_analysis_prompt, hc]
  · simp [run_query_response, hc]

/-- C5: a mid-stream error is terminal for both streaming consumers — the loop
stops at the error leaving the remainder of the stream unconsumed, exactly one
event is published for the request and it is the error event (the partial
accumulated text is not published), and the function returns that error. -/
theorem stream_error_terminal (pre post : List StreamItem) (e : List Char)
    (hp : pre.all isFragOrOther = true) :
    consumeStream [] (pre ++ StreamItem.errorItem e :: post)
      = .errored (deltaText pre) e post
    ∧ run_analysis_prompt (.ok (pre ++ StreamItem.errorItem e :: post))
      = ([.analysis (streamErrMsg e)], some (streamErrMsg e))
    ∧ run_query_response (.ok (pre ++ StreamItem.errorItem e :: post))
      = ([.queryResponse (streamErrMsg e)], some (streamErrMsg e)) := by
  have hc : consumeStream [] (pre ++ StreamItem.errorItem e :: post)
      = .errored (deltaText pre) e post := by
    rw [consumeStream_fragments pre hp (StreamItem.errorItem e :: post) []]
    simp [consumeStream]
  exact ⟨hc, by simp [run_analysis_prompt, hc], by simp [run_query_response, hc]⟩

/-- Witness for C5, on the fragment sequence `["partial"]` of the specification
followed by an error and a stray trailing fragment. -/
theorem stream_error_terminal_witness :
    ([StreamItem.outputTextDelta ("partial".toList)].all isFragOrOther = true)
    ∧ (consumeStream []
        ([StreamItem.outputTextDelta ("partial".toList)]
          ++ StreamItem.errorItem ("E".toList) :: [StreamItem.outputTextDelta ("x".toList)])
        = .errored (deltaText [StreamItem.outputTextDelta ("partial".toList)]) ("E".toList)
            [StreamItem.outputTextDelta ("x".toList)]
      ∧ run_analysis_prompt (.ok ([StreamItem.outputTextDelta ("partial".toList)]
          ++ StreamItem.errorItem ("E".toList) :: [StreamItem.outputTextDelta ("x".toList)]))
        = ([.analysis (streamErrMsg ("E".toList))], some (streamErrMsg ("E".toList)))
      ∧ run_query_response (.ok ([StreamItem.outputTextDelta ("partial".toList)]
          ++ StreamItem.errorItem ("E".toList) :: [StreamItem.outputTextDelta ("x".toList)]))
        = ([.queryResponse (streamErrMsg ("E".toList))], some (streamErrMsg ("E".toList)))) :=
  ⟨by decide,
   stream_error_terminal [StreamItem.outputTextDelta ("partial".toList)]
     [StreamItem.outputTextDelta ("x".toList)] ("E".toList) (by decide)⟩

/-! ### Properties of the pattern matcher -/

theorem trimEndAux_no_suffix (p s : List Char) (fuel : Nat)
    (h : p.isSuffixOf s = false) : trimEndAux p fuel s = s := by
  cases fuel with
  | zero => rfl
  | succ n => simp [trimEndAux, h]

theorem append_sss_ne_star (pre : List Char) :
    pre ++ ("/**".toList) ≠ ("*".toList) := by
  intro h
  have h2 := congrArg List.length h
  simp at h2

theorem trimEnd_sss_append (pre : List Char)
    (h : ("/**".toList).isSuffixOf pre = false) :
    trimEndMatches ("/**".toList) (pre ++ ("/**".toList)) = pre := by
  have hsuf : ("/**".toList).isSuffixOf (pre ++ ("/**".toList)) = true := by
    rw [List.isSuffixOf_iff_suffix]
    exact List.suffix_append pre _
  have hlen : (pre ++ ("/**".toList)).length = pre.length + 3 := by simp
  unfold trimEndMatches
  rw [hlen]
  have hstep : trimEndAux ("/**".toList) (pre.length + 3) (pre ++ ("/**".toList))
      = trimEndAux ("/**".toList) (pre.length + 2)
          ((pre ++ ("/**".toList)).take ((pre ++ ("/**".toList)).length - ("/**".toList).length)) := by
    simp [trimEndAux, hsuf]
  rw [hstep, hlen]
  have htake : (pre ++ ("/**".toList)).take (pre.length + 3 - ("/**".toList).length) = pre := by
    have : pre.length + 3 - ("/**".toList).length = pre.length := by simp
    rw [this]
    exact List.take_left ..
  rw [htake]
  exact trimEndAux_no_suffix _ _ _ h

theorem sss_suffix_append (pre : List Char) :
    ("/**".toList).isSuffixOf (pre ++ ("/**".toList)) = true := by
  rw [List.isSuffixOf_iff_suffix]
  exact List.suffix_append pre _

/-- C3 (amended): for a pattern of the form `prefix/**` (where the prefix does
not itself end in `/**`), the matcher used both for rule matching and for
`is_excluded` matches a path exactly when the path starts with `prefix` itself —
a following slash is not required — or when one of the other checks fires: the
checks run in source order (`*` can never fire for such a pattern, then the
`*.ext` suffix check, then the `prefix/**` check, then the shell-glob fallback),
and the whole match is their disjunction. -/
theorem matcher_prefix_pattern (g : GlobMatcher) (f pre : List Char)
    (h : ("/**".toList).isSuffixOf pre = false) :
    (matches_patterns g f [pre ++ ("/**".toList)]
      = ((("*.".toList).isPrefixOf (pre ++ ("/**".toList))
            && ('.' :: trimStartMatches ("*.".toList) (pre ++ ("/**".toList))).isSuffixOf f)
         || pre.isPrefixOf f
         || g (pre ++ ("/**".toList)) f))
    ∧ ∀ cfg : ProjectConfig, cfg.is_excluded g f = matches_patterns g f cfg.exclude_patterns := by
  refine ⟨?_, fun cfg => rfl⟩
  have h1 : matches_patterns g f [pre ++ ("/**".toList)]
      = matchesSinglePattern g f (pre ++ ("/**".toList)) := by
    simp [matches_patterns]
  rw [h1]
  unfold matchesSinglePattern
  rw [if_neg (append_sss_ne_star pre)]
  rw [trimEnd_sss_append pre h, sss_suffix_append pre]
  cases hc2 : (("*.".toList).isPrefixOf (pre ++ ("/**".toList))
      && ('.' :: trimStartMatches ("*.".toList) (pre ++ ("/**".toList))).isSuffixOf f) with
  | true => simp
  | false =>
    cases hpf : pre.isPrefixOf f with
    | true => simp [hpf]
    | false => simp [hpf]

/-- C3 counterexample: the path `targets` does not start with `target/`, yet the
matcher accepts it for the pattern `target/**` (the hand-written fast path only
requires the path to start with `target`), refuting the claimed "exactly when
the path starts with `prefix/`" semantics. -/
theorem matcher_prefix_no_slash_cex :
    matches_patterns (fun _ _ => false) ("targets".toList) [("target/**".toList)] = true
    ∧ ("target/".toList).isPrefixOf ("targets".toList) = false := by decide

/-- Witness for C3 amended, at pattern `target/**` and path `targets`. -/
theorem matcher_prefix_pattern_witness :
    (("/**".toList).isSuffixOf ("target".toList) = false)
    ∧ ((matches_patterns (fun _ _ => false) ("targets".toList)
          [("target".toList) ++ ("/**".toList)]
        = ((("*.".toList).isPrefixOf (("target".toList) ++ ("/**".toList))
              && ('.' :: trimStartMatches ("*.".toList)
                    (("target".toList) ++ ("/**".toList))).isSuffixOf ("targets".toList))
           || ("target".toList).isPrefixOf ("targets".toList)
           || (fun _ _ => false) (("target".toList) ++ ("/**".toList)) ("targets".toList)))
      ∧ ∀ cfg : ProjectConfig,
          cfg.is_excluded (fun _ _ => false) ("targets".toList)
            = matches_patterns (fun _ _ => false) ("targets".toList) cfg.exclude_patterns) :=
  ⟨by decide, matcher_prefix_pattern (fun _ _ => false) ("targets".toList) ("target".toList)
    (by decide)⟩

/-! ### Properties of the gateway port-binding loop -/

theorem bindAux_all_busy (bindOk : Nat → Bool) (port : Nat) (hp : port + 10 < 65536)
    (hbusy : ∀ q2, port ≤ q2 → q2 ≤ port + 10 → bindOk q2 = false) :
    ∀ fuel try_port, port ≤ try_port → try_port ≤ port + 10 →
      bindAux bindOk port fuel try_port = none := by
  intro fuel
  induction fuel with
  | zero => intro t _ _; rfl
  | succ n ih =>
    intro t h1 h2
    have hb : bindOk t = false := hbusy t h1 h2
    simp only [bindAux, hb, Bool.false_eq_true, if_false]
    rw [Nat.mod_eq_of_lt hp]
    by_cases hlt : t < port + 10
    · rw [if_pos hlt]
      exact ih (t + 1) (by omega) (by omega)
    · rw [if_neg hlt]

theorem bindAux_first_free (bindOk : Nat → Bool) (port q : Nat) (hp : port + 10 < 65536)
    (hq : q ≤ port + 10) (hfree : bindOk q = true)
    (hbefore : ∀ q2, port ≤ q2 → q2 < q → bindOk q2 = false) :
    ∀ fuel try_port, port ≤ try_port → try_port ≤ q → q - try_port < fuel →
      bindAux bindOk port fuel try_port = some q := by
  intro fuel
  induction fuel with
  | zero => intro t _ _ h3; omega
  | succ n ih =>
    intro t h1 h2 h3
    by_cases heq : t = q
    · subst heq
      simp [bindAux, hfree]
    · have hlt : t < q := by omega
      have hb : bindOk t = false := hbefore t h1 hlt
      simp only [bindAux, hb, Bool.false_eq_true, if_false]
      rw [Nat.mod_eq_of_lt hp]
      rw [if_pos (by omega : t < port + 10)]
      exact ih (t + 1) (by omega) (by omega) (by omega)

/-- C6 (amended): for a configured port `P` with `P + 10 < 65536`, the gateway
tries ports `P, P+1, …, P+10` in order — up to ten retries, so `P+10` (not
`P+9`) is the last port tried: if all eleven are busy it gives up (`none`,
after which `run_server` logs the fatal startup error and returns, stopping
only the gateway task), and otherwise it binds the first free port of that
range, which is the port it reports. -/
theorem run_server_bind_spec (bindOk : Nat → Bool) (port : Nat) (hp : port + 10 < 65536) :
    ((∀ q2, port ≤ q2 → q2 ≤ port + 10 → bindOk q2 = false) →
      run_server_bind bindOk port = none)
    ∧ (∀ q, port ≤ q → q ≤ port + 10 → bindOk q = true →
        (∀ q2, port ≤ q2 → q2 < q → bindOk q2 = false) →
        run_server_bind bindOk port = some q) := by
  constructor
  · intro hbusy
    exact bindAux_all_busy bindOk port hp hbusy 11 port (Nat.le_refl port) (by omega)
  · intro q h1 h2 h3 h4
    exact bindAux_first_free bindOk port q hp h2 h3 h4 11 port (Nat.le_refl port) h1 (by omega)

/-- C6 counterexample: with configured port 8000 and only port 8010 free, the
gateway binds 8010 — an eleventh attempt beyond the claimed last port 8009 —
instead of failing fatally as the claim requires. -/
theorem run_server_bind_cex :
    run_server_bind (fun q => decide (q = 8010)) 8000 = some 8010
    ∧ 8000 + 9 < 8010 := by decide

/-- Witness for C6 amended: all ports busy gives `none`; with port 8000 busy and
8001 free the gateway binds and reports 8001. -/
theorem run_server_bind_spec_witness :
    (8000 + 10 < 65536)
    ∧ run_server_bind (fun _ => false) 8000 = none
    ∧ run_server_bind (fun q => decide (q = 8001)) 8000 = some 8001 :=
  ⟨by decide,
   (run_server_bind_spec (fun _ => false) 8000 (by decide)).1 (fun _ _ _ => rfl),
   (run_server_bind_spec (fun q => decide (q = 8001)) 8000 (by decide)).2 8001
     (by decide) (by decide) (by decide)
     (fun q2 _ h2 => by
       have hne : q2 ≠ 8001 := by omega
       simp [hne])⟩

/-! ### Properties of the scan cycle -/

/-- C9: a loaded project configuration with `enabled = false` makes
`perform_ambient_check` return success immediately — it publishes no event,
invokes no version-control command, and issues no model call. -/
theorem disabled_config_is_noop (g : GlobMatcher) (env : CycleEnv) (cfg : ProjectConfig)
    (hd : cfg.enabled = false) :
    eventsOf (perform_ambient_check g env cfg).1 = []
    ∧ gitCallsOf (perform_ambient_check g env cfg).1 = []
    ∧ modelCallsOf (perform_ambient_check g env cfg).1 = []
    ∧ (perform_ambient_check g env cfg).2 = none := by
  simp [perform_ambient_check, hd, eventsOf, gitCallsOf, modelCallsOf]

/-- Witness for C9, at the default configuration with `enabled` turned off. -/
theorem disabled_config_is_noop_witness :
    cfgDisabled.enabled = false
    ∧ (eventsOf (perform_ambient_check (fun _ _ => false) envUntracked cfgDisabled).1 = []
      ∧ gitCallsOf (perform_ambient_check (fun _ _ => false) envUntracked cfgDisabled).1 = []
      ∧ modelCallsOf (perform_ambient_check (fun _ _ => false) envUntracked cfgDisabled).1 = []
      ∧ (perform_ambient_check (fun _ _ => false) envUntracked cfgDisabled).2 = none) :=
  ⟨rfl, disabled_config_is_noop (fun _ _ => false) envUntracked cfgDisabled rfl⟩

theorem linesOf_nil : linesOf [] = [] := rfl

theorem changedFilesOf_trim_nil (s : List Char) (ht : rustTrim s = []) :
    changedFilesOf s = [] := by
  simp [changedFilesOf, ht, linesOf_nil]

/-- Shape of a cycle that reaches the analysis stage: the enabled check, the
status call, the found-files event, the rev-parse call, then all diff calls,
then the per-file processing — and the cycle returns `Ok`. -/
theorem perform_trace_success (g : GlobMatcher) (env : CycleEnv) (cfg : ProjectConfig)
    (s r : List Char) (he : cfg.enabled = true) (hs : env.statusResult = .ok s)
    (ht : rustTrim s ≠ []) (hr : env.revParseResult = .ok r) :
    perform_ambient_check g env cfg
      = (Action.gitCall statusArgs ::
          ((if (linesOf (rustTrim s)).isEmpty then []
            else [Action.sendEvent (.analysis (foundMsg env.now (linesOf (rustTrim s)).length))])
           ++ [Action.gitCall revParseArgs])
          ++ (changedFilesOf s).map (fun f => Action.gitCall (diffArgs f))
          ++ (changedFilesOf s).flatMap
              (fun f => processFile g env cfg (mkAllDiffs env (changedFilesOf s)) (rustTrim r) f),
        none) := by
  simp [perform_ambient_check, he, hs, ht, hr, changedFilesOf]

theorem processFile_done_mem (g : GlobMatcher) (env : CycleEnv) (cfg : ProjectConfig)
    (all_diffs : List ((List Char) × (List Char))) (git_root f : List Char)
    (hx : cfg.is_excluded g f = false) :
    Action.sendEvent (.analysis (("--- 分析完了: ".toList) ++ f ++ (" ---\n".toList)))
      ∈ processFile g env cfg all_diffs git_root f := by
  simp [processFile, hx]

/-- C4 (amended): a non-zero exit of the `git status` or `git rev-parse`
command aborts the whole cycle with an error, which the scheduler publishes as
an event and then proceeds to the next tick; but when those two commands
succeed the cycle always returns `Ok` — in particular a non-zero exit of a
per-file `git diff` command does **not** abort the cycle (the file is merely
treated as having no diff). -/
theorem cycle_abort_policy (g : GlobMatcher) (env : CycleEnv) (cfg : ProjectConfig)
    (he : cfg.enabled = true) :
    (∀ e, env.statusResult = .err e →
      (perform_ambient_check g env cfg).2 = some (gitFailMsg e))
    ∧ (∀ s e, env.statusResult = .ok s → rustTrim s ≠ [] → env.revParseResult = .err e →
      (perform_ambient_check g env cfg).2 = some (gitFailMsg e))
    ∧ (∀ s r, env.statusResult = .ok s → env.revParseResult = .ok r →
      (perform_ambient_check g env cfg).2 = none)
    ∧ (∀ e, (perform_ambient_check g env cfg).2 = some e →
      tick_handler g env cfg
        = (perform_ambient_check g env cfg).1
          ++ [Action.sendEvent (.analysis (tickErrMsg env.now e))])
    ∧ (∀ ticks : List CycleEnv,
      scheduler_run g cfg ticks = ticks.flatMap (fun en => tick_handler g en cfg)) := by
  refine ⟨?_, ?_, ?_, ?_, fun ticks => rfl⟩
  · intro e hse
    simp [perform_ambient_check, he, hse]
  · intro s e hs hne hr
    simp [perform_ambient_check, he, hs, hne, hr]
  · intro s r hs hr
    by_cases ht : rustTrim s = []
    · simp [perform_ambient_check, he, hs, ht]
    · rw [perform_trace_success g env cfg s r he hs ht hr]
  · intro e hres
    simp [tick_handler, hres]

/-- C4 counterexample: a cycle in which the per-file `git diff HEAD` command is
invoked and exits non-zero, yet the cycle returns `Ok` instead of aborting with
an error as the claim requires. -/
theorem diff_failure_does_not_abort_cex :
    envDiffFails.diffResult ("a.rs".toList) = .err ("fatal: bad object HEAD".toList)
    ∧ Action.gitCall (diffArgs ("a.rs".toList))
        ∈ (perform_ambient_check (fun _ _ => false) envDiffFails ProjectConfig.default).1
    ∧ (perform_ambient_check (fun _ _ => false) envDiffFails ProjectConfig.default).2 = none :=
  ⟨rfl, by decide, by decide⟩

/-- Witness for C4 amended: a failing status command makes the cycle abort with
the git error, and the tick handler publishes it as an event. -/
theorem cycle_abort_policy_witness :
    ProjectConfig.default.enabled = true
    ∧ envStatusFails.statusResult = .err ("not a git repository".toList)
    ∧ (perform_ambient_check (fun _ _ => false) envStatusFails ProjectConfig.default).2
        = some (gitFailMsg ("not a git repository".toList))
    ∧ tick_handler (fun _ _ => false) envStatusFails ProjectConfig.default
        = (perform_ambient_check (fun _ _ => false) envStatusFails ProjectConfig.default).1
          ++ [Action.sendEvent (.analysis (tickErrMsg envStatusFails.now
                (gitFailMsg ("not a git repository".toList))))] :=
  ⟨rfl, rfl,
   (cycle_abort_policy (fun _ _ => false) envStatusFails ProjectConfig.default rfl).1 _ rfl,
   (cycle_abort_policy (fun _ _ => false) envStatusFails ProjectConfig.default rfl).2.2.2.1 _
     ((cycle_abort_policy (fun _ _ => false) envStatusFails ProjectConfig.default rfl).1 _ rfl)⟩

/-- C7: when the status and rev-parse commands succeed the cycle returns `Ok`
whatever the model endpoint does; a model/provider failure on one prompt is
published as user-visible events (the stream-open failure and the wrapper's
`Error:` event) and swallowed; and every non-excluded changed file is still
processed to its completion event, regardless of any model failures. -/
theorem cycle_survives_model_failures (g : GlobMatcher) (env : CycleEnv) (cfg : ProjectConfig)
    (s r : List Char) (hs : env.statusResult = .ok s) (hr : env.revParseResult = .ok r) :
    (perform_ambient_check g env cfg).2 = none
    ∧ (∀ title ptext e, env.stream ptext = .error e →
        analyzeWithPrompt env title ptext
          = [Action.sendEvent (.analysis ('\n' :: title)),
             Action.modelCall ptext,
             Action.sendEvent (.analysis (openFailMsg e)),
             Action.sendEvent (.analysis (("Error: ".toList) ++ openFailMsg e))])
    ∧ (∀ title ptext pre post e,
        env.stream ptext = .ok (pre ++ StreamItem.errorItem e :: post) →
        pre.all isFragOrOther = true →
        analyzeWithPrompt env title ptext
          = [Action.sendEvent (.analysis ('\n' :: title)),
             Action.modelCall ptext,
             Action.sendEvent (.analysis (streamErrMsg e)),
             Action.sendEvent (.analysis (("Error: ".toList) ++ streamErrMsg e))])
    ∧ (∀ f, cfg.enabled = true → f ∈ changedFilesOf s → cfg.is_excluded g f = false →
        Action.sendEvent (.analysis (("--- 分析完了: ".toList) ++ f ++ (" ---\n".toList)))
          ∈ (perform_ambient_check g env cfg).1) := by
  refine ⟨?_, ?_, ?_, ?_⟩
  · by_cases he : cfg.enabled = true
    · by_cases ht : rustTrim s = []
      · simp [perform_ambient_check, he, hs, ht]
      · rw [perform_trace_success g env cfg s r he hs ht hr]
    · have he2 : cfg.enabled = false := by
        cases hb : cfg.enabled
        · rfl
        · exact absurd hb he
      simp [perform_ambient_check, he2]
  · intro title ptext e hstream
    simp [analyzeWithPrompt, run_analysis_prompt_actions, run_analysis_prompt, hstream]
  · intro title ptext pre post e hstream hp
    have hc : consumeStream [] (pre ++ StreamItem.errorItem e :: post)
        = .errored (deltaText pre) e post := by
      rw [consumeStream_fragments pre hp (StreamItem.errorItem e :: post) []]
      simp [consumeStream]
    simp [analyzeWithPrompt, run_analysis_prompt_actions, run_analysis_prompt, hstream, hc]
  · intro f he hf hx
    by_cases ht : rustTrim s = []
    · rw [changedFilesOf_trim_nil s ht] at hf
      exact absurd hf (List.not_mem_nil f)
    · rw [perform_trace_success g env cfg s r he hs ht hr]
      exact List.mem_append_right _
        (List.mem_flatMap.mpr ⟨f, hf, processFile_done_mem g env cfg _ _ f hx⟩)

/-- Witness for C7: one modified file, every model request failing to open; the
cycle still returns `Ok` and the file's completion event is published. -/
theorem cycle_survives_model_failures_witness :
    envDiffOk.statusResult = .ok ("M  a.rs".toList)
    ∧ envDiffOk.revParseResult = .ok ("/repo".toList)
    ∧ (perform_ambient_check (fun _ _ => false) envDiffOk ProjectConfig.default).2 = none
    ∧ Action.sendEvent
        (.analysis (("--- 分析完了: ".toList) ++ ("a.rs".toList) ++ (" ---\n".toList)))
        ∈ (perform_ambient_check (fun _ _ => false) envDiffOk ProjectConfig.default).1 :=
  ⟨rfl, rfl,
   (cycle_survives_model_failures (fun _ _ => false) envDiffOk ProjectConfig.default
     ("M  a.rs".toList) ("/repo".toList) rfl rfl).1,
   (cycle_survives_model_failures (fun _ _ => false) envDiffOk ProjectConfig.default
     ("M  a.rs".toList) ("/repo".toList) rfl rfl).2.2.2 ("a.rs".toList) rfl (by decide) (by decide)⟩

theorem modelCallsOf_nil : modelCallsOf [] = [] := rfl

theorem modelCallsOf_append (t1 t2 : List Action) :
    modelCallsOf (t1 ++ t2) = modelCallsOf t1 ++ modelCallsOf t2 :=
  List.filterMap_append ..

theorem modelCallsOf_cons_send (e : AmbientEvent) (tr : List Action) :
    modelCallsOf (Action.sendEvent e :: tr) = modelCallsOf tr := by
  simp [modelCallsOf, List.filterMap_cons]

theorem modelCallsOf_cons_git (args : List (List Char)) (tr : List Action) :
    modelCallsOf (Action.gitCall args :: tr) = modelCallsOf tr := by
  simp [modelCallsOf, List.filterMap_cons]

theorem modelCallsOf_cons_call (p : List Char) (tr : List Action) :
    modelCallsOf (Action.modelCall p :: tr) = p :: modelCallsOf tr := by
  simp [modelCallsOf, List.filterMap_cons]

theorem modelCallsOf_sendEvents (evs : List AmbientEvent) :
    modelCallsOf (evs.map Action.sendEvent) = [] := by
  induction evs with
  | nil => rfl
  | cons e evs ih => simp [List.map_cons, modelCallsOf_cons_send, ih]

theorem modelCallsOf_analyze (env : CycleEnv) (title ptext : List Char) :
    modelCallsOf (analyzeWithPrompt env title ptext) = [ptext] := by
  unfold analyzeWithPrompt run_analysis_prompt_actions
  cases hres : (run_analysis_prompt (env.stream ptext)).2 with
  | none =>
    simp [hres, modelCallsOf_cons_send, modelCallsOf_cons_call, modelCallsOf_append,
      modelCallsOf_sendEvents, modelCallsOf]
  | some e =>
    simp [hres, modelCallsOf_cons_send, modelCallsOf_cons_call, modelCallsOf_append,
      modelCallsOf_sendEvents, modelCallsOf, List.filterMap_cons]

theorem modelCallsOf_flatMap (l : List (List Char)) (pf : (List Char) → List Action) :
    modelCallsOf (l.flatMap pf) = l.flatMap (fun f => modelCallsOf (pf f)) := by
  induction l with
  | nil => rfl
  | cons a l ih => simp [List.flatMap_cons, modelCallsOf_append, ih]

theorem modelCallsOf_map_git (l : List (List Char)) :
    modelCallsOf (l.map (fun f => Action.gitCall (diffArgs f))) = [] := by
  induction l with
  | nil => rfl
  | cons a l ih => simp [List.map_cons, modelCallsOf_cons_git, ih]

theorem get_reviews_for_file_of_no_reviews (cfg : ProjectConfig) (g : GlobMatcher)
    (fp : List Char) (hrev : cfg.reviews = []) :
    cfg.get_reviews_for_file g fp = [] := by
  simp [ProjectConfig.get_reviews_for_file, hrev, sortDesc]

theorem modelCallsOf_processFile_no_reviews (g : GlobMatcher) (env : CycleEnv)
    (cfg : ProjectConfig) (all_diffs : List ((List Char) × (List Char)))
    (git_root f : List Char) (hrev : cfg.reviews = []) :
    modelCallsOf (processFile g env cfg all_diffs git_root f)
      = if cfg.is_excluded g f then []
        else
          match lookupA f all_diffs with
          | some d => [prompt1 f d, prompt2 f d]
          | none => [] := by
  by_cases hx : cfg.is_excluded g f
  · simp [processFile, hx, modelCallsOf_cons_send, modelCallsOf]
  · have hre : cfg.get_reviews_for_file g f = [] :=
      get_reviews_for_file_of_no_reviews cfg g f hrev
    cases hl : lookupA f all_diffs with
    | none =>
      simp [processFile, hx, hre, hl, modelCallsOf_cons_send, modelCallsOf_append, modelCallsOf]
    | some d =>
      simp [processFile, hx, hre, hl, modelCallsOf_cons_send, modelCallsOf_append,
        modelCallsOf_analyze, modelCallsOf_nil]

/-- C2 (amended): in a cycle whose configured review list is empty (so the
default branch runs for every file), the model calls of the cycle are exactly,
file by file in order: nothing for an excluded file, the syntax/type-error
check prompt followed by the security-scan prompt for a file with an entry in
the per-cycle diff map, and — forced by the counterexample — **no** model call
for a changed file whose diff is empty or failed (such a file still gets its
analysis start/end events but the default branch issues no prompt for it). -/
theorem default_pipeline_call_pattern (g : GlobMatcher) (env : CycleEnv) (cfg : ProjectConfig)
    (s r : List Char) (hrev : cfg.reviews = []) (he : cfg.enabled = true)
    (hs : env.statusResult = .ok s) (hr : env.revParseResult = .ok r) :
    modelCallsOf (perform_ambient_check g env cfg).1
      = (changedFilesOf s).flatMap (fun f =>
          if cfg.is_excluded g f then []
          else
            match lookupA f (mkAllDiffs env (changedFilesOf s)) with
            | some d => [prompt1 f d, prompt2 f d]
            | none => []) := by
  by_cases ht : rustTrim s = []
  · rw [changedFilesOf_trim_nil s ht]
    simp [perform_ambient_check, he, hs, ht, modelCallsOf_cons_git, modelCallsOf]
  · rw [perform_trace_success g env cfg s r he hs ht hr]
    have hbody : ∀ f, modelCallsOf (processFile g env cfg (mkAllDiffs env (changedFilesOf s))
        (rustTrim r) f)
        = if cfg.is_excluded g f then []
          else
            match lookupA f (mkAllDiffs env (changedFilesOf s)) with
            | some d => [prompt1 f d, prompt2 f d]
            | none => [] :=
      fun f => modelCallsOf_processFile_no_reviews g env cfg _ _ f hrev
    by_cases hemp : (linesOf (rustTrim s)).isEmpty
    · simp only [hemp, if_pos, List.nil_append, modelCallsOf_cons_git, modelCallsOf_append,
        modelCallsOf_map_git, modelCallsOf_flatMap, List.nil_append, hbody]
      simp [modelCallsOf, List.filterMap_cons]
    · simp only [hemp, if_neg, List.cons_append, List.nil_append, modelCallsOf_cons_git,
        modelCallsOf_cons_send, modelCallsOf_append, modelCallsOf_map_git,
        modelCallsOf_flatMap, hbody]
      simp [modelCallsOf, List.filterMap_cons]

/-- C2 counterexample: with an empty review list, one changed, non-excluded
file (`new.rs`, untracked, so `git diff HEAD` output is empty), the cycle
issues zero model calls — not the claimed two. -/
theorem default_pipeline_zero_calls_cex :
    changedFilesOf ("?? new.rs".toList) = [("new.rs".toList)]
    ∧ cfgNoReviews.is_excluded (fun _ _ => false) ("new.rs".toList) = false
    ∧ cfgNoReviews.reviews = []
    ∧ modelCallsOf (perform_ambient_check (fun _ _ => false) envUntracked cfgNoReviews).1 = [] := by
  refine ⟨by decide, by decide, rfl, by decide⟩

/-- Witness for C2 amended: one modified file with a diff entry; the cycle's
model calls are exactly the syntax prompt then the security prompt for it. -/
theorem default_pipeline_call_pattern_witness :
    cfgNoReviews.reviews = []
    ∧ cfgNoReviews.enabled = true
    ∧ envDiffOk.statusResult = .ok ("M  a.rs".toList)
    ∧ envDiffOk.revParseResult = .ok ("/repo".toList)
    ∧ modelCallsOf (perform_ambient_check (fun _ _ => false) envDiffOk cfgNoReviews).1
        = (changedFilesOf ("M  a.rs".toList)).flatMap (fun f =>
            if cfgNoReviews.is_excluded (fun _ _ => false) f then []
            else
              match lookupA f (mkAllDiffs envDiffOk (changedFilesOf ("M  a.rs".toList))) with
              | some d => [prompt1 f d, prompt2 f d]
              | none => []) :=
  ⟨rfl, rfl, rfl, rfl,
   default_pipeline_call_pattern (fun _ _ => false) envDiffOk cfgNoReviews
     ("M  a.rs".toList) ("/repo".toList) rfl rfl rfl rfl⟩

theorem lookupA_mkAllDiffs_none (env : CycleEnv) (f : List Char)
    (changed : List (List Char)) (h : ∀ d, env.diffResult f = .ok d → rustTrim d = []) :
    lookupA f (mkAllDiffs env changed) = none := by
  induction changed with
  | nil => rfl
  | cons c rest ih =>
    cases hd : env.diffResult c with
    | err m =>
      have hstep : mkAllDiffs env (c :: rest) = mkAllDiffs env rest := by
        simp [mkAllDiffs, List.filterMap_cons, hd]
      rw [hstep]
      exact ih
    | ok d =>
      by_cases hte : rustTrim d = []
      · have hstep : mkAllDiffs env (c :: rest) = mkAllDiffs env rest := by
          simp [mkAllDiffs, List.filterMap_cons, hd, hte]
        rw [hstep]
        exact ih
      · have hstep : mkAllDiffs env (c :: rest) = (c, d) :: mkAllDiffs env rest := by
          simp [mkAllDiffs, List.filterMap_cons, hd, hte]
        have hcf : c ≠ f := by
          intro heq
          subst heq
          exact hte (h d hd)
        rw [hstep]
        simp only [lookupA, if_neg hcf]
        exact ih

/-- C10: a changed file whose `git diff HEAD` fails or produces empty (trimmed)
output has no entry in the per-cycle diff map; in the custom-review branch each
rule's prompt is then built from the file's on-disk content read from the
repository root (the model-call contents are exactly the rules' prompts over
that file content), and when that read fails every rule for the file is
skipped with no event published (the review loop contributes no action). -/
theorem missing_diff_behavior (env : CycleEnv) (changed : List (List Char))
    (f git_root : List Char) :
    (∀ m, env.diffResult f = .err m → lookupA f (mkAllDiffs env changed) = none)
    ∧ (∀ d, env.diffResult f = .ok d → rustTrim d = [] →
        lookupA f (mkAllDiffs env changed) = none)
    ∧ (∀ (all_diffs : List ((List Char) × (List Char))) (n i : Nat)
        (reviews : List ReviewConfig), lookupA f all_diffs = none →
        env.readFile (pathJoin git_root f) = none →
        processReviews env all_diffs git_root f n i reviews = [])
    ∧ (∀ (all_diffs : List ((List Char) × (List Char))) (n i : Nat)
        (reviews : List ReviewConfig) (fc : List Char), lookupA f all_diffs = none →
        env.readFile (pathJoin git_root f) = some fc →
        modelCallsOf (processReviews env all_diffs git_root f n i reviews)
          = reviews.map (fun rv => replaceAll placeholderFP f rv.prompt ++ sepLine ++ fc)) := by
  refine ⟨?_, ?_, ?_, ?_⟩
  · intro m hm
    apply lookupA_mkAllDiffs_none
    intro d hd
    rw [hm] at hd
    exact absurd hd (by simp)
  · intro d hd hte
    apply lookupA_mkAllDiffs_none
    intro d2 hd2
    rw [hd] at hd2
    cases hd2
    exact hte
  · intro all_diffs n i reviews hl hrf
    induction reviews generalizing i with
    | nil => rfl
    | cons rv rest ih =>
      simp only [processReviews, reviewContent, hl, hrf]
      exact ih i
  · intro all_diffs n i reviews fc hl hrf
    induction reviews generalizing i with
    | nil => rfl
    | cons rv rest ih =>
      simp only [processReviews, reviewContent, hl, hrf, List.map_cons]
      rw [modelCallsOf_append, modelCallsOf_analyze, ih (i + 1)]
      rfl

/-- Witness for C10: a failed diff and an empty diff both leave the diff map
without an entry; with no diff entry, a failing read skips all three default
rules silently, while a successful read builds every rule's prompt from the
on-disk file content. -/
theorem missing_diff_behavior_witness :
    (envDiffFails.diffResult ("a.rs".toList) = .err ("fatal: bad object HEAD".toList)
      ∧ lookupA ("a.rs".toList) (mkAllDiffs envDiffFails [("a.rs".toList)]) = none)
    ∧ (envUntracked.diffResult ("new.rs".toList) = .ok [] ∧ rustTrim ([] : List Char) = []
      ∧ lookupA ("new.rs".toList) (mkAllDiffs envUntracked [("new.rs".toList)]) = none)
    ∧ (envDiffFails.readFile (pathJoin ("/repo".toList) ("a.rs".toList)) = none
      ∧ processReviews envDiffFails [] ("/repo".toList) ("a.rs".toList) 3 1
          ProjectConfig.default.reviews = [])
    ∧ (envReadOk.readFile (pathJoin ("/repo".toList) ("a.rs".toList))
          = some ("fn main() \x7b\x7d".toList)
      ∧ modelCallsOf (processReviews envReadOk [] ("/repo".toList) ("a.rs".toList) 3 1
            ProjectConfig.default.reviews)
          = ProjectConfig.default.reviews.map
              (fun rv => replaceAll placeholderFP ("a.rs".toList) rv.prompt ++ sepLine
                ++ ("fn main() \x7b\x7d".toList))) :=
  ⟨⟨rfl, (missing_diff_behavior envDiffFails [("a.rs".toList)] ("a.rs".toList)
      ("/repo".toList)).1 _ rfl⟩,
   ⟨rfl, rfl, (missing_diff_behavior envUntracked [("new.rs".toList)] ("new.rs".toList)
      ("/repo".toList)).2.1 [] rfl rfl⟩,
   ⟨rfl, (missing_diff_behavior envDiffFails [] ("a.rs".toList) ("/repo".toList)).2.2.1
      [] 3 1 _ rfl rfl⟩,
   ⟨rfl, (missing_diff_behavior envReadOk [] ("a.rs".toList) ("/repo".toList)).2.2.2
      [] 3 1 _ _ rfl rfl⟩⟩

end Ambient
